import Mathlib

/-!
# Verification of `DataProcessing/ComputeObservables.py`

A shallow embedding of the two functions of the module:

* `ComputeObservedLight` — draws a binomial then a Poisson sample from a
  shared random source and returns their sum.
* `ComputeObservedCharge` — the per-event channel classification, noise
  rejection, weighted position/drift reconstruction and charge aggregation
  loop.

Modelling conventions:

* Python / numpy floats are modelled by exact rationals extended with the
  IEEE special values `nan`, `+inf`, `-inf` (type `FQ`).  The final
  `np.sqrt` is kept symbolic (`FSqrt.val q` denotes the real number `√q`);
  no claim requires the numeric value of the square root.
* Randomness is explicit: every random draw the code makes is a parameter.
  A normal draw can realize any real number, so normal draws are passed as
  unconstrained rational streams (`jit`, `fluct`), indexed by the channel
  they are drawn for.  Binomial and Poisson draws are passed as functions
  of the distribution parameters, constrained to the support of the
  distribution (`LightRNG.Valid`).
* Python exceptions are modelled by `Except PyErr`: `indexError` for an
  out-of-range list subscript, `valueError` for the ambiguous truth value
  of a multi-element numpy array, `nameError` for the undefined names
  `time` / `start_time` in the progress-report line of the event loop.
-/

/-- Python exceptions that the embedded code can raise. -/
inductive PyErr : Type
  | indexError
  | valueError
  | nameError
deriving DecidableEq, Repr

deriving instance DecidableEq for Except

/-- `arr[i]` on a Python list / 1-d numpy array with `0 ≤ i`. -/
def listGet {α : Type} (l : List α) (i : ℕ) : Except PyErr α :=
  match l.get? i with
  | some a => .ok a
  | none => .error .indexError

/-- Truthiness of `np.array(x)` (line 74): a scalar (or single-element
array) is truthy iff nonzero; a multi-element array raises
`ValueError: the truth value of an array with more than one element is
ambiguous`.  An empty array is falsy (legacy numpy semantics). -/
def npBool : List ℚ → Except PyErr Bool
  | [] => .ok false
  | [q] => .ok (decide (q ≠ 0))
  | _ => .error .valueError

/-- One event of the input dataframe `dfelec`: the six parallel per-channel
arrays.  `noiseTag` entries are possibly array-valued (spec §3), hence each
is a list. -/
structure Event : Type where
  charge : List ℚ
  localId : List ℤ
  time : List ℚ
  xPosition : List ℚ
  yPosition : List ℚ
  noiseTag : List (List ℚ)
deriving DecidableEq, Repr

/-- Lines 63–72: the strip geometry selected from the channel's local id:
`(strip_width, strip_height, xoffset, yoffset)`. -/
def stripGeometry (localId : ℤ) : ℚ × ℚ × ℚ × ℚ :=
  if localId > 15 then (96, 6, -96 / 2, 0) else (6, 96, 0, -96 / 2)

/-- The values the loop body appends for one non-noise channel
(lines 78–88): jittered drift time, offset x/y positions, per-axis weights,
charge weight, and the `is_x_channel` flag. -/
structure ChRec : Type where
  drift : ℚ
  x : ℚ
  y : ℚ
  xw : ℚ
  yw : ℚ
  cw : ℚ
  isX : Bool
deriving DecidableEq, Repr

/-- Lines 59–88, one iteration of the channel loop at channel `i`:
classify the channel and, when it is not noise, produce the appended
record.  `jit i` is the `np.random.normal(0., 2.)` draw of line 79. -/
def channelStep (jit : ℕ → ℚ) (e : Event) (i : ℕ) :
    Except PyErr (Bool × Option ChRec) := do
  let lid ← listGet e.localId i
  let g := stripGeometry lid
  let tag ← listGet e.noiseTag i
  let b ← npBool tag
  if b then
    return (true, none)
  else
    let t ← listGet e.time i
    let x ← listGet e.xPosition i
    let y ← listGet e.yPosition i
    let c ← listGet e.charge i
    return (false, some ⟨t + jit i, x + g.2.2.1, y + g.2.2.2,
                         1 / g.1, 1 / g.2.1, c, decide (lid > 15)⟩)

/-- The channel loop over a list of channel indices, accumulating the
`is_noise_channel` mask and the per-non-noise-channel records in order. -/
def channelScan (jit : ℕ → ℚ) (e : Event) :
    List ℕ → Except PyErr (List Bool × List ChRec)
  | [] => .ok ([], [])
  | i :: rest => do
    let hd ← channelStep jit e i
    let tl ← channelScan jit e rest
    return (hd.1 :: tl.1,
            match hd.2 with
            | some r => r :: tl.2
            | none => tl.2)

/-- Rationals extended with the IEEE special values. -/
inductive FQ : Type
  | nan
  | pinf
  | ninf
  | fin (q : ℚ)
deriving DecidableEq, Repr

/-- IEEE division of two finite values: `0/0 = nan`, `a/0 = ±inf` for
`a ≠ 0`. -/
def fdiv (a b : ℚ) : FQ :=
  if b = 0 then
    if a = 0 then .nan else if a > 0 then .pinf else .ninf
  else .fin (a / b)

/-- IEEE square. -/
def fsq : FQ → FQ
  | .nan => .nan
  | .pinf => .pinf
  | .ninf => .pinf
  | .fin q => .fin (q ^ 2)

/-- IEEE addition. -/
def fadd : FQ → FQ → FQ
  | .nan, _ => .nan
  | _, .nan => .nan
  | .pinf, .pinf => .pinf
  | .pinf, .ninf => .nan
  | .pinf, .fin _ => .pinf
  | .ninf, .pinf => .nan
  | .ninf, .ninf => .ninf
  | .ninf, .fin _ => .ninf
  | .fin _, .pinf => .pinf
  | .fin _, .ninf => .ninf
  | .fin a, .fin b => .fin (a + b)

/-- The result of the final `np.sqrt`: `val q` denotes the real number
`√q` (kept symbolic; exact); `np.sqrt` of a negative value is `nan`. -/
inductive FSqrt : Type
  | nan
  | pinf
  | val (q : ℚ)
deriving DecidableEq, Repr

/-- IEEE square root on the extended values. -/
def fsqrtE : FQ → FSqrt
  | .nan => .nan
  | .pinf => .pinf
  | .ninf => .nan
  | .fin q => if q < 0 then .nan else .val q

/-- Numerator of `weighted_x` (line 98): `np.sum(x_positions*(charge_weights*x_weights))`. -/
def xNum (rs : List ChRec) : ℚ := (rs.map fun r => r.x * (r.cw * r.xw)).sum

/-- Denominator of `weighted_x` (line 98): `np.sum(charge_weights*x_weights)`. -/
def xDen (rs : List ChRec) : ℚ := (rs.map fun r => r.cw * r.xw).sum

/-- Numerator of `weighted_y` (line 99). -/
def yNum (rs : List ChRec) : ℚ := (rs.map fun r => r.y * (r.cw * r.yw)).sum

/-- Denominator of `weighted_y` (line 99). -/
def yDen (rs : List ChRec) : ℚ := (rs.map fun r => r.cw * r.yw).sum

/-- Numerator of `weighted_drift` (line 103): `np.sum(drift_times*charge_weights)`. -/
def driftNum (rs : List ChRec) : ℚ := (rs.map fun r => r.drift * r.cw).sum

/-- Denominator of `weighted_drift` (line 103): `np.sum(charge_weights)`. -/
def driftDen (rs : List ChRec) : ℚ := (rs.map fun r => r.cw).sum

/-- Line 101: `weighted_radius = np.sqrt(weighted_x**2 + weighted_y**2)`. -/
def weightedRadiusOf (rs : List ChRec) : FSqrt :=
  fsqrtE (fadd (fsq (fdiv (xNum rs) (xDen rs))) (fsq (fdiv (yNum rs) (yDen rs))))

/-- Line 110–111: `fluctuated_charge = np.random.normal(0.,600.,size=nch) + charge`;
`fluct i` is the i-th component of the normal draw. -/
def fluctuatedCharge (fluct : ℕ → ℚ) (e : Event) : List ℚ :=
  e.charge.enum.map fun p => fluct p.1 + p.2

/-- `np.sum(l[m])` for a boolean mask `m` of the same length as `l`. -/
def maskSum (l : List ℚ) (m : List Bool) : ℚ :=
  ((l.zip m).filterMap fun p => if p.2 then some p.1 else none).sum

/-- One row of the output dictionary (one per event). -/
structure EventObservables : Type where
  num_channels_in_evt : ℕ
  evt_charge_including_noise : ℚ
  evt_charge_excluding_noise : ℚ
  evt_charge_above_threshold : ℚ
  num_channels_above_threshold : ℕ
  num_channels_excluding_noise : ℕ
  num_channels_collection : ℕ
  num_collection_below_threshold : ℕ
  num_channels_induction : ℕ
  weighted_radius : FSqrt
  weighted_drift : FQ
  num_channels_nonzero_charge_with_noise : ℕ
  num_channels_nonzero_charge_excluding_noise : ℕ
deriving DecidableEq, Repr

/-- Lines 90–125: the per-event derived quantities, computed from the
channel-scan result `p = (is_noise_channel, non-noise records)`. -/
def mkObservables (fluct : ℕ → ℚ) (channel_threshold : ℚ) (e : Event)
    (p : List Bool × List ChRec) : EventObservables :=
  let ns := p.1
  let rs := p.2
  let notNs := ns.map (!·)
  let nzm := e.charge.map fun c => decide (c ≠ 0)
  let fl := fluctuatedCharge fluct e
  let tm := fl.map fun q => decide (q > channel_threshold)
  { num_channels_in_evt := e.charge.length
    evt_charge_including_noise := maskSum e.charge nzm
    evt_charge_excluding_noise :=
      maskSum e.charge (nzm.zipWith (· && ·) notNs)
    evt_charge_above_threshold :=
      maskSum fl (tm.zipWith (· && ·) notNs)
    num_channels_above_threshold :=
      ((tm.zipWith (· && ·) notNs).count true)
    num_channels_excluding_noise := notNs.count true
    num_channels_collection :=
      ((notNs.zipWith (· && ·) nzm).count true)
    num_collection_below_threshold :=
      (((notNs.zipWith (· && ·) nzm).zipWith (· && ·) (tm.map (!·))).count true)
    num_channels_induction :=
      ((notNs.zipWith (· && ·) (nzm.map (!·))).count true)
    weighted_radius := weightedRadiusOf rs
    weighted_drift := fdiv (driftNum rs) (driftDen rs)
    num_channels_nonzero_charge_with_noise := nzm.count true
    num_channels_nonzero_charge_excluding_noise :=
      ((nzm.zipWith (· && ·) notNs).count true) }

/-- Lines 44–125: processing of a single event `row`.  `nch` is the length
of the charge array; the channel loop runs over `range(nch)`. -/
def processEvent (jit fluct : ℕ → ℚ) (channel_threshold : ℚ) (e : Event) :
    Except PyErr EventObservables :=
  (channelScan jit e (List.range e.charge.length)).map
    (mkObservables fluct channel_threshold e)

/-- The default of the `channel_threshold` keyword (line 17). -/
def defaultChannelThreshold : ℚ := -100000

/-- Lines 37–42 and the event loop: the batch fold with the 1-based event
counter.  When the counter is a multiple of 100000, the progress-report
line evaluates `time.time()-start_time`; `time` and `start_time` are
undefined names in the module, so a `NameError` is raised before the event
is processed.  `jit k` / `fluct k` are the normal-draw streams consumed by
event number `k` (0-based). -/
def chargeLoop (jit fluct : ℕ → ℕ → ℚ) (channel_threshold : ℚ) :
    ℕ → List Event → Except PyErr (List EventObservables)
  | _, [] => .ok []
  | counter, e :: rest =>
    if (counter + 1) % 100000 = 0 then .error .nameError
    else do
      let obs ← processEvent (jit counter) (fluct counter) channel_threshold e
      let tl ← chargeLoop jit fluct channel_threshold (counter + 1) rest
      return obs :: tl

/-- `ComputeObservedCharge(dfelec, channel_threshold)` (lines 17–145):
the ordered table of per-event observables, or the first exception
raised. -/
def ComputeObservedCharge (jit fluct : ℕ → ℕ → ℚ) (channel_threshold : ℚ)
    (dfelec : List Event) : Except PyErr (List EventObservables) :=
  chargeLoop jit fluct channel_threshold 0 dfelec

/-- The Poisson probability mass function `e^(-λ) λ^k / k!`; used only to
constrain Poisson draws to the support of the distribution. -/
noncomputable def poissonPMF (lam : ℝ) (k : ℕ) : ℝ :=
  Real.exp (-lam) * lam ^ k / (Nat.factorial k)

/-- The random draws consumed by `ComputeObservedLight`, as functions of
the distribution parameters. -/
structure LightRNG : Type where
  binomialDraw : ℕ → ℚ → ℕ
  poissonDraw : ℚ → ℕ

/-- A realization is valid when every draw lies in the support of its
distribution: a `Binomial(n, p)` sample is at most `n`, and a
`Poisson(λ)` sample has nonzero probability mass. -/
structure LightRNG.Valid (g : LightRNG) : Prop where
  binomial_le : ∀ n p, g.binomialDraw n p ≤ n
  poisson_support : ∀ lam : ℚ, 0 ≤ lam →
    poissonPMF (lam : ℝ) (g.poissonDraw lam) ≠ 0

/-- Lines 7–11: `ComputeObservedLight`: draw
`detected_photons ~ Binomial(fInitNOP, 0.03)`, then add
`~ Poisson(detected_photons * 0.2)` smearing. -/
def ComputeObservedLight (g : LightRNG) (fInitNOP : ℕ) : ℕ :=
  let detected_photons := g.binomialDraw fInitNOP (3 / 100)
  detected_photons + g.poissonDraw ((detected_photons : ℚ) * (2 / 10))

/-- The random state of one run of the Observable Extractor: all draw
streams, as derived from the seed of the shared generator. -/
structure ExtractorRNG : Type where
  light : LightRNG
  jit : ℕ → ℕ → ℚ
  fluct : ℕ → ℕ → ℚ

/-- One run of the Observable Extractor: `ComputeObservedLight` over the
per-event photon counts and `ComputeObservedCharge` over the channel
data. -/
def RunExtractor (g : ExtractorRNG) (channel_threshold : ℚ)
    (nops : List ℕ) (dfelec : List Event) :
    List ℕ × Except PyErr (List EventObservables) :=
  (nops.map (ComputeObservedLight g.light),
   ComputeObservedCharge g.jit g.fluct channel_threshold dfelec)

/-- Two runs of the Observable Extractor on the same input with the same
seed (hence the same realized draw streams). -/
def runTwice (g : ExtractorRNG) (channel_threshold : ℚ)
    (nops : List ℕ) (dfelec : List Event) :
    (List ℕ × Except PyErr (List EventObservables)) ×
    (List ℕ × Except PyErr (List EventObservables)) :=
  (RunExtractor g channel_threshold nops dfelec,
   RunExtractor g channel_threshold nops dfelec)

/-! ## Concrete inputs used by counterexamples and witnesses -/

/-- The all-zero jitter / fluctuation stream (one possible realization of
the normal draws). -/
def zeroStream : ℕ → ℚ := fun _ => 0

/-- An all-zero two-level stream for the batch loop. -/
def zeroStream2 : ℕ → ℕ → ℚ := fun _ _ => 0

/-- An event with no channels at all. -/
def emptyEvent : Event := ⟨[], [], [], [], [], []⟩

/-- One channel, charge 0, non-noise (`noiseTag = [0]`), local id 0. -/
def eC1 : Event := ⟨[0], [0], [0], [0], [0], [[0]]⟩

/-- The §8 scenario event: an X-channel (local id 16) at `(10, 0)` and a
Y-channel (local id 0) at `(0, 10)`, both with charge 5 and drift time
100, both non-noise. -/
def eC5 : Event := ⟨[5, 5], [16, 0], [100, 100], [10, 0], [0, 10], [[0], [0]]⟩

/-- A mismatched event: the charge array has one entry, the other five
arrays have two. -/
def eC4 : Event := ⟨[5], [16, 0], [100, 100], [10, 0], [0, 10], [[0], [0]]⟩

/-- One channel whose noise tag is the two-element array `[1, 0]`. -/
def eC6 : Event := ⟨[5], [16], [100], [10], [0], [[1, 0]]⟩

/-- The observables of the channel-free event, as computed by the code:
all counts and sums 0, weighted position and drift NaN. -/
def obsEmpty : EventObservables := ⟨0, 0, 0, 0, 0, 0, 0, 0, 0, .nan, .nan, 0, 0⟩

/-- The channel record the loop accumulates for the single channel of
`eC1`. -/
def recC1 : ChRec := ⟨0, 0, -48, 1 / 6, 1 / 96, 0, false⟩

/-- The observables the code computes for `eC1`. -/
def obsC1 : EventObservables := ⟨1, 0, 0, 0, 1, 1, 0, 0, 1, .nan, .nan, 0, 0⟩

/-- The event with every non-charge array cut to the length of the charge
array (what the loop effectively uses, since `nch` is taken from the
charge array alone). -/
def truncateEvent (e : Event) : Event :=
  ⟨e.charge, e.localId.take e.charge.length, e.time.take e.charge.length,
   e.xPosition.take e.charge.length, e.yPosition.take e.charge.length,
   e.noiseTag.take e.charge.length⟩

/-- A concrete valid realization: every binomial draw 0, every Poisson
draw 0. -/
def lightRNGZero : LightRNG := ⟨fun _ _ => 0, fun _ => 0⟩

/-! ## Inversion and counting lemmas -/

theorem exceptMap_ok_iff {α β : Type} {f : α → β} {x : Except PyErr α} {b : β} :
    x.map f = .ok b ↔ ∃ a, x = .ok a ∧ f a = b := by
  cases x <;> simp [Except.map]

theorem channelScan_cons_ok {jit : ℕ → ℚ} {e : Event} {i : ℕ} {rest : List ℕ}
    {p : List Bool × List ChRec} :
    channelScan jit e (i :: rest) = .ok p ↔
      ∃ hd tl, channelStep jit e i = .ok hd ∧ channelScan jit e rest = .ok tl ∧
        p = (hd.1 :: tl.1, match hd.2 with | some r => r :: tl.2 | none => tl.2) := by
  cases h1 : channelStep jit e i <;> cases h2 : channelScan jit e rest <;>
    simp [channelScan, h1, h2, Bind.bind, Except.bind, Pure.pure, Except.pure, eq_comm]

theorem channelStep_shape {jit : ℕ → ℚ} {e : Event} {i : ℕ}
    {v : Bool × Option ChRec} (h : channelStep jit e i = .ok v) :
    v = (true, none) ∨ ∃ r, v = (false, some r) := by
  unfold channelStep at h
  cases h1 : listGet e.localId i <;> rw [h1] at h <;>
    simp [Bind.bind, Except.bind] at h
  cases h2 : listGet e.noiseTag i <;> rw [h2] at h <;>
    simp [Bind.bind, Except.bind] at h
  cases h3 : npBool _ <;> rw [h3] at h <;>
    simp [Bind.bind, Except.bind] at h
  rename_i b
  cases b
  · simp at h
    cases h4 : listGet e.time i <;> rw [h4] at h <;>
      simp [Bind.bind, Except.bind] at h
    cases h5 : listGet e.xPosition i <;> rw [h5] at h <;>
      simp [Bind.bind, Except.bind] at h
    cases h6 : listGet e.yPosition i <;> rw [h6] at h <;>
      simp [Bind.bind, Except.bind] at h
    cases h7 : listGet e.charge i <;> rw [h7] at h <;>
      simp [Bind.bind, Except.bind, Pure.pure, Except.pure] at h
    exact Or.inr ⟨_, h.symm⟩
  · simp [Pure.pure, Except.pure] at h
    exact Or.inl h.symm

theorem channelScan_shape {jit : ℕ → ℚ} {e : Event} :
    ∀ {idxs : List ℕ} {ns : List Bool} {rs : List ChRec},
    channelScan jit e idxs = .ok (ns, rs) →
    ns.length = idxs.length ∧ rs.length = ns.count false
  | [], ns, rs, h => by
      simp [channelScan] at h
      simp [h.1, h.2]
  | i :: rest, ns, rs, h => by
      rcases channelScan_cons_ok.mp h with ⟨hd, tl, hhd, htl, hp⟩
      obtain ⟨h1, h2⟩ := channelScan_shape htl
      rcases channelStep_shape hhd with hv | ⟨r, hv⟩ <;>
        · subst hv
          simp at hp
          simp [hp.1, hp.2, h1, h2, List.count_cons]

theorem count_map_not (l : List Bool) : (l.map (!·)).count true = l.count false := by
  induction l with
  | nil => simp
  | cons hd tl ih => cases hd <;> simp [List.count_cons, ih]

theorem count_partition :
    ∀ (a b : List Bool), a.length = b.length →
    ((a.zipWith (· && ·) b).count true) +
      ((a.zipWith (· && ·) (b.map (!·))).count true) = a.count true
  | [], _, _ => by simp
  | _ :: _, [], h => by simp at h
  | ha :: ta, hb :: tb, h => by
      have ih := count_partition ta tb (by simpa using h)
      cases ha <;> cases hb <;>
        simp [List.count_cons, ih] <;> omega

theorem all_false_zipWith :
    ∀ {m l : List Bool}, (∀ b ∈ m, b = false) →
    ∀ b ∈ m.zipWith (· && ·) l, b = false
  | [], _, _ => by simp
  | _ :: _, [], _ => by simp
  | hm :: tm, hl :: tl, h => by
      intro b hb
      rcases List.mem_cons.mp hb with hb | hb
      · simp only [hb, h hm (List.mem_cons_self _ _), Bool.false_and]
      · exact all_false_zipWith (fun b hb => h b (List.mem_cons_of_mem _ hb)) b hb

theorem count_true_eq_zero {m : List Bool} (h : ∀ b ∈ m, b = false) :
    m.count true = 0 :=
  List.count_eq_zero.mpr fun hmem => by simpa using h true hmem

theorem maskSum_eq_zero :
    ∀ (l : List ℚ) (m : List Bool), (∀ b ∈ m, b = false) → maskSum l m = 0
  | [], _, _ => by simp [maskSum]
  | _ :: _, [], _ => by simp [maskSum]
  | q :: lt, hm :: tm, h => by
      have hh := h hm (List.mem_cons_self _ _)
      have ih := maskSum_eq_zero lt tm (fun b hb => h b (List.mem_cons_of_mem _ hb))
      simp [maskSum, hh] at ih ⊢
      exact ih

/-- C7: for every event processed by `ComputeObservedCharge`, the outputs
satisfy `num_channels_collection + num_channels_induction ==
num_channels_excluding_noise`: the non-noise channels are partitioned by
the nonzero-charge mask into collection and induction channels. -/
theorem collection_add_induction_eq_excluding_noise
    (jit fluct : ℕ → ℚ) (th : ℚ) (e : Event) (obs : EventObservables)
    (h : processEvent jit fluct th e = .ok obs) :
    obs.num_channels_collection + obs.num_channels_induction =
      obs.num_channels_excluding_noise := by
  rcases exceptMap_ok_iff.mp h with ⟨p, hscan, hobs⟩
  obtain ⟨ns, rs⟩ := p
  obtain ⟨hlen, -⟩ := channelScan_shape hscan
  subst hobs
  simp only [mkObservables]
  have hlen2 : (ns.map (!·)).length =
      (e.charge.map fun c => decide (c ≠ 0)).length := by
    simp [hlen]
  have := count_partition (ns.map (!·)) (e.charge.map fun c => decide (c ≠ 0)) hlen2
  simpa [count_map_not] using this

theorem processEvent_emptyEvent :
    processEvent zeroStream zeroStream defaultChannelThreshold emptyEvent = .ok obsEmpty := rfl

/-- Witness for C7 at a concrete event. -/
theorem collection_add_induction_eq_excluding_noise_witness :
    obsEmpty.num_channels_collection + obsEmpty.num_channels_induction =
      obsEmpty.num_channels_excluding_noise :=
  collection_add_induction_eq_excluding_noise zeroStream zeroStream
    defaultChannelThreshold emptyEvent obsEmpty processEvent_emptyEvent

/-- C8: if `channel_threshold` is strictly above every fluctuated charge of
the event, the event's `num_channels_above_threshold` and
`evt_charge_above_threshold` are both 0. -/
theorem threshold_above_all_fluctuated
    (jit fluct : ℕ → ℚ) (th : ℚ) (e : Event) (obs : EventObservables)
    (h : processEvent jit fluct th e = .ok obs)
    (hth : ∀ x ∈ fluctuatedCharge fluct e, x < th) :
    obs.num_channels_above_threshold = 0 ∧ obs.evt_charge_above_threshold = 0 := by
  rcases exceptMap_ok_iff.mp h with ⟨p, hscan, hobs⟩
  subst hobs
  simp only [mkObservables]
  have htm : ∀ b ∈ (fluctuatedCharge fluct e).map (fun q => decide (q > th)),
      b = false := by
    intro b hb
    rcases List.mem_map.mp hb with ⟨x, hx, rfl⟩
    simpa using not_lt_of_gt (hth x hx)
  have hall := all_false_zipWith (l := p.1.map (!·)) htm
  exact ⟨count_true_eq_zero hall, maskSum_eq_zero _ _ hall⟩

/-- Witness for C8 at a concrete event. -/
theorem threshold_above_all_fluctuated_witness :
    obsEmpty.num_channels_above_threshold = 0 ∧
      obsEmpty.evt_charge_above_threshold = 0 :=
  threshold_above_all_fluctuated zeroStream zeroStream defaultChannelThreshold
    emptyEvent obsEmpty processEvent_emptyEvent
    (by simp [fluctuatedCharge, emptyEvent])

theorem fdiv_eq_nan_iff (a b : ℚ) : fdiv a b = .nan ↔ a = 0 ∧ b = 0 := by
  unfold fdiv
  split_ifs <;> simp_all

theorem fsqrtE_add_sq_eq_nan_iff (u v : FQ) :
    fsqrtE (fadd (fsq u) (fsq v)) = .nan ↔ u = .nan ∨ v = .nan := by
  cases u <;> cases v <;> simp [fsq, fadd, fsqrtE]
  all_goals positivity

theorem weightedRadiusOf_eq_nan_iff (rs : List ChRec) :
    weightedRadiusOf rs = .nan ↔
      (xNum rs = 0 ∧ xDen rs = 0) ∨ (yNum rs = 0 ∧ yDen rs = 0) := by
  unfold weightedRadiusOf
  rw [fsqrtE_add_sq_eq_nan_iff, fdiv_eq_nan_iff, fdiv_eq_nan_iff]

/-- C1 (amended): `weighted_radius` is NaN iff one of the per-axis
weighted sums is `0/0`, i.e. iff both the numerator and the denominator of
`weighted_x` (or of `weighted_y`) vanish; in particular an event with zero
non-noise channels yields NaN, and no exception is raised.  (NaN is not
restricted to zero non-noise channels: a non-noise channel with charge 0
also zeroes all four sums.) -/
theorem weighted_radius_nan_characterization
    (jit fluct : ℕ → ℚ) (th : ℚ) (e : Event) (obs : EventObservables)
    (ns : List Bool) (rs : List ChRec)
    (hscan : channelScan jit e (List.range e.charge.length) = .ok (ns, rs))
    (h : processEvent jit fluct th e = .ok obs) :
    (obs.weighted_radius = .nan ↔
      (xNum rs = 0 ∧ xDen rs = 0) ∨ (yNum rs = 0 ∧ yDen rs = 0)) ∧
    (obs.num_channels_excluding_noise = 0 → obs.weighted_radius = .nan) := by
  rcases exceptMap_ok_iff.mp h with ⟨p, hscan2, hobs⟩
  rw [hscan] at hscan2
  injection hscan2 with hp
  subst hp
  subst hobs
  constructor
  · simp only [mkObservables]
    exact weightedRadiusOf_eq_nan_iff rs
  · intro hz
    have h1 : (ns.map (!·)).count true = 0 := by
      simpa [mkObservables] using hz
    rw [count_map_not] at h1
    have h2 := (channelScan_shape hscan).2
    have hrs : rs = [] := List.length_eq_zero.mp (by rw [h2, h1])
    subst hrs
    simp [mkObservables, weightedRadiusOf_eq_nan_iff, xNum, xDen]

/-- C1 is false as stated: the event `eC1` has exactly one non-noise
channel (so nonzero many), yet its charge is 0, all weighted sums are 0,
and `weighted_radius` is NaN. -/
theorem weighted_radius_nan_counterexample :
    (processEvent zeroStream zeroStream defaultChannelThreshold eC1).map
      (fun o => (o.weighted_radius, o.num_channels_excluding_noise)) =
      .ok (.nan, 1) := by
  norm_num [processEvent, channelScan, channelStep, listGet, npBool, stripGeometry,
    mkObservables, weightedRadiusOf, fdiv, fsq, fadd, fsqrtE, xNum, xDen, yNum, yDen,
    driftNum, driftDen, fluctuatedCharge, maskSum, eC1, zeroStream, List.range,
    List.range.loop, Except.map, Except.bind, Bind.bind, Except.pure, Pure.pure]

/-- Witness for the amended C1 at the concrete event `eC1`. -/
theorem weighted_radius_nan_witness :
    ((obsC1.weighted_radius = .nan ↔
      (xNum [recC1] = 0 ∧ xDen [recC1] = 0) ∨ (yNum [recC1] = 0 ∧ yDen [recC1] = 0)) ∧
    (obsC1.num_channels_excluding_noise = 0 → obsC1.weighted_radius = .nan)) :=
  weighted_radius_nan_characterization zeroStream zeroStream defaultChannelThreshold
    eC1 obsC1 [false] [recC1]
    (by norm_num [channelScan, channelStep, listGet, npBool, stripGeometry, eC1,
      recC1, zeroStream, List.range, List.range.loop, Except.bind, Bind.bind,
      Except.pure, Pure.pure])
    (by norm_num [processEvent, channelScan, channelStep, listGet, npBool,
      stripGeometry, mkObservables, weightedRadiusOf, fdiv, fsq, fadd, fsqrtE,
      xNum, xDen, yNum, yDen, driftNum, driftDen, fluctuatedCharge, maskSum, eC1,
      recC1, obsC1, zeroStream, defaultChannelThreshold, List.range,
      List.range.loop, List.filterMap_cons, Except.map, Except.bind, Bind.bind,
      Except.pure, Pure.pure])

/-- C5 is false as stated: on the §8 scenario event, for the realization
in which both per-channel drift-time jitter draws are 1, `weighted_drift`
is 101, not 100: the code adds Gaussian jitter to each drift time before
weighting. -/
theorem weighted_drift_scenario_counterexample :
    (processEvent (fun _ => 1) zeroStream defaultChannelThreshold eC5).map
      (fun o => o.weighted_drift) = .ok (.fin 101) := by
  norm_num [processEvent, channelScan, channelStep, listGet, npBool, stripGeometry,
    mkObservables, weightedRadiusOf, fdiv, fsq, fadd, fsqrtE, xNum, xDen, yNum, yDen,
    driftNum, driftDen, fluctuatedCharge, maskSum, eC5, zeroStream, List.range,
    List.range.loop, Except.map, Except.bind, Bind.bind, Except.pure, Pure.pure]

/-- C5 (amended): on the §8 scenario event, `weighted_drift` equals
`100 + (j0 + j1)/2` where `j0`, `j1` are the jitter draws of the two
channels; it is 100 exactly iff the jitter draws cancel (e.g. for the
zero-jitter realization), and never raises an exception. -/
theorem weighted_drift_scenario (jit fluct : ℕ → ℚ) :
    (processEvent jit fluct defaultChannelThreshold eC5).map
      (fun o => o.weighted_drift) = .ok (.fin (100 + (jit 0 + jit 1) / 2)) := by
  norm_num [processEvent, channelScan, channelStep, listGet, npBool, stripGeometry,
    mkObservables, weightedRadiusOf, fdiv, fsq, fadd, fsqrtE, xNum, xDen, yNum, yDen,
    driftNum, driftDen, fluctuatedCharge, maskSum, eC5, List.range,
    List.range.loop, Except.map, Except.bind, Bind.bind, Except.pure, Pure.pure]
  ring

/-- C2: a channel is classified as an X-channel (`is_x_channel` true) iff
its local id exceeds 15, and the loop uses exactly strip width 96, height
6, x-offset −48, y-offset 0 for X-channels and width 6, height 96,
x-offset 0, y-offset −48 for Y-channels, accumulating the per-axis weights
`1/strip_width` and `1/strip_height`. -/
theorem channel_classification_geometry
    (jit : ℕ → ℚ) (e : Event) (i : ℕ) (lid : ℤ) (tag : List ℚ)
    (t x y c : ℚ)
    (hlid : e.localId[i]? = some lid)
    (htag : e.noiseTag[i]? = some tag)
    (hb : npBool tag = .ok false)
    (ht : e.time[i]? = some t)
    (hx : e.xPosition[i]? = some x)
    (hy : e.yPosition[i]? = some y)
    (hc : e.charge[i]? = some c) :
    channelStep jit e i = .ok (false, some
      { drift := t + jit i
        x := x + (if 15 < lid then -48 else 0)
        y := y + (if 15 < lid then 0 else -48)
        xw := if 15 < lid then 1 / 96 else 1 / 6
        yw := if 15 < lid then 1 / 6 else 1 / 96
        cw := c
        isX := decide (15 < lid) }) := by
  by_cases hl : 15 < lid <;>
    simp [channelStep, listGet, stripGeometry, List.get?_eq_getElem?,
      hlid, htag, hb, ht, hx, hy, hc, hl,
      Bind.bind, Except.bind, Pure.pure, Except.pure] <;>
    norm_num

/-- Witness for C2: the first channel of the §8 scenario event, local id
16, is an X-channel with weights 1/96 and 1/6 and offsets (−48, 0). -/
theorem channel_classification_geometry_witness :
    channelStep (fun _ => 1) eC5 0 = .ok (false, some
      { drift := 101
        x := -38
        y := 0
        xw := 1 / 96
        yw := 1 / 6
        cw := 5
        isX := true }) := by
  have h := channel_classification_geometry (fun _ => 1) eC5 0 16 [0] 100 10 0 5
    rfl rfl (by norm_num [npBool]) rfl rfl rfl rfl
  norm_num at h
  exact h

/-- C6 is false as stated: a channel whose `noiseTag` is the two-element
array `[1, 0]` is not classified as noise ("any element nonzero"); the
truth test `np.array(noiseTag[i])` raises `ValueError` and the whole batch
aborts. -/
theorem noise_classification_counterexample :
    processEvent zeroStream zeroStream defaultChannelThreshold eC6 =
      .error .valueError := by decide

/-- C6 (amended): a channel with a scalar (single-element) `noiseTag` is
classified as noise iff that value is nonzero; a `noiseTag` array of two
or more elements raises `ValueError` instead of being reduced with "any";
and only channels classified non-noise produce an accumulated record. -/
theorem noise_classification_amended :
    (∀ q : ℚ, npBool [q] = .ok (decide (q ≠ 0))) ∧
    (∀ tag : List ℚ, 2 ≤ tag.length → npBool tag = .error .valueError) ∧
    (∀ (jit : ℕ → ℚ) (e : Event) (i : ℕ) (b : Bool) (r : Option ChRec),
      channelStep jit e i = .ok (b, r) → (b = true ↔ r = none)) := by
  refine ⟨fun q => rfl, ?_, ?_⟩
  · intro tag htag
    match tag, htag with
    | q1 :: q2 :: rest, _ => rfl
  · intro jit e i b r h
    rcases channelStep_shape h with hv | ⟨rec, hv⟩ <;>
      · injection hv with h1 h2
        subst h1
        subst h2
        simp

/-- Witness for the amended C6: concrete instances of all three parts. -/
theorem noise_classification_amended_witness :
    npBool [1] = .ok true ∧ npBool [0] = .ok false ∧
      npBool [1, 0] = .error .valueError := by
  refine ⟨?_, ?_, noise_classification_amended.2.1 [1, 0] (by norm_num)⟩
  · have h := noise_classification_amended.1 1
    norm_num at h
    exact h
  · have h := noise_classification_amended.1 0
    norm_num at h
    exact h

theorem chargeLoop_no_completion :
    ∀ (events : List Event) (jit fluct : ℕ → ℕ → ℚ) (th : ℚ) (c : ℕ),
      c < 100000 → 100000 ≤ c + events.length →
      (∀ out, chargeLoop jit fluct th c events ≠ .ok out) ∧
      ((∀ k e2, events[k]? = some e2 →
          ∃ obs, processEvent (jit (c + k)) (fluct (c + k)) th e2 = .ok obs) →
        chargeLoop jit fluct th c events = .error .nameError)
  | [], jit, fluct, th, c, hc, hlen => by
      exfalso
      simp at hlen
      omega
  | e :: rest, jit, fluct, th, c, hc, hlen => by
      by_cases hmod : (c + 1) % 100000 = 0
      · constructor
        · intro out
          simp [chargeLoop, hmod]
        · intro _
          simp [chargeLoop, hmod]
      · have hmod2 : c + 1 < 100000 := by
          rcases Nat.lt_or_ge (c + 1) 100000 with h | h
          · exact h
          · exfalso
            have he : c + 1 = 100000 := by omega
            rw [he] at hmod
            simp at hmod
        have hlen2 : 100000 ≤ c + 1 + rest.length := by
          simp at hlen
          omega
        obtain ⟨ih1, ih2⟩ :=
          chargeLoop_no_completion rest jit fluct th (c + 1) hmod2 hlen2
        constructor
        · intro out hout
          simp only [chargeLoop, if_neg hmod] at hout
          cases hpe : processEvent (jit c) (fluct c) th e <;>
            rw [hpe] at hout <;>
            simp [Bind.bind, Except.bind] at hout
          cases hcl : chargeLoop jit fluct th (c + 1) rest <;>
            rw [hcl] at hout <;>
            simp [Bind.bind, Except.bind, Pure.pure, Except.pure] at hout
          exact absurd hcl (ih1 _)
        · intro hall
          obtain ⟨obs, hobs⟩ := hall 0 e (by simp)
          rw [Nat.add_zero] at hobs
          have hrest : ∀ k e2, rest[k]? = some e2 →
              ∃ obs2, processEvent (jit (c + 1 + k)) (fluct (c + 1 + k)) th e2 =
                .ok obs2 := by
            intro k e2 hk
            have h2 := hall (k + 1) e2 (by simpa using hk)
            rwa [show c + (k + 1) = c + 1 + k by omega] at h2
          have h3 := ih2 hrest
          simp only [chargeLoop, if_neg hmod]
          rw [hobs, h3]
          simp [Bind.bind, Except.bind]

/-- C3: the progress-report line of the event loop references the
undefined names `time` and `start_time`, so any input with at least
100000 events never completes: the result is never `ok`, and when every
event itself processes without an exception, the raised exception is
precisely the `NameError` at the 100000th event. -/
theorem progress_report_name_error
    (jit fluct : ℕ → ℕ → ℚ) (th : ℚ) (events : List Event)
    (hlen : 100000 ≤ events.length) :
    (∀ out, ComputeObservedCharge jit fluct th events ≠ .ok out) ∧
    ((∀ k e2, events[k]? = some e2 →
        ∃ obs, processEvent (jit k) (fluct k) th e2 = .ok obs) →
      ComputeObservedCharge jit fluct th events = .error .nameError) := by
  have h := chargeLoop_no_completion events jit fluct th 0 (by norm_num) (by simpa)
  unfold ComputeObservedCharge
  exact ⟨h.1, fun hall => h.2 (fun k e2 hk => by simpa using hall k e2 hk)⟩

/-- Witness for C3: 100000 copies of the channel-free event make the
batch fail with the `NameError`. -/
theorem progress_report_name_error_witness :
    ComputeObservedCharge zeroStream2 zeroStream2 defaultChannelThreshold
      (List.replicate 100000 emptyEvent) = .error .nameError := by
  refine (progress_report_name_error zeroStream2 zeroStream2 defaultChannelThreshold
    (List.replicate 100000 emptyEvent)
    (by rw [List.length_replicate])).2 ?_
  intro k e2 hk
  have he : e2 = emptyEvent := by
    rw [List.getElem?_replicate] at hk
    by_cases hklt : k < 100000 <;> simp [hklt] at hk
    exact hk.symm
  subst he
  exact ⟨obsEmpty, rfl⟩

theorem listGet_take {α : Type} (l : List α) (n i : ℕ) (h : i < n) :
    listGet (l.take n) i = listGet l i := by
  unfold listGet
  rw [List.get?_take h]

theorem channelStep_truncate (jit : ℕ → ℚ) (e : Event) (i : ℕ)
    (h : i < e.charge.length) :
    channelStep jit (truncateEvent e) i = channelStep jit e i := by
  simp only [channelStep, truncateEvent, listGet_take _ _ _ h]

theorem channelScan_congr (jit : ℕ → ℚ) (e1 e2 : Event) :
    ∀ idxs : List ℕ, (∀ i ∈ idxs, channelStep jit e1 i = channelStep jit e2 i) →
    channelScan jit e1 idxs = channelScan jit e2 idxs
  | [], _ => rfl
  | i :: rest, h => by
      have ih := channelScan_congr jit e1 e2 rest
        (fun j hj => h j (List.mem_cons_of_mem _ hj))
      simp [channelScan, h i (List.mem_cons_self _ _), ih]

theorem listGet_isOk {α : Type} (l : List α) (i : ℕ) (h : i < l.length) :
    ∃ a, listGet l i = .ok a := by
  unfold listGet
  rw [List.get?_eq_get h]
  exact ⟨_, rfl⟩

theorem listGet_eq_ok_iff {α : Type} {l : List α} {i : ℕ} {a : α} :
    listGet l i = .ok a ↔ l.get? i = some a := by
  unfold listGet
  cases l.get? i <;> simp

theorem npBool_isOk {tag : List ℚ} (h : tag.length ≤ 1) :
    ∃ b, npBool tag = .ok b := by
  match tag, h with
  | [], _ => exact ⟨false, rfl⟩
  | [q], _ => exact ⟨_, rfl⟩

theorem channelStep_isOk (jit : ℕ → ℚ) (e : Event) (i : ℕ)
    (hi : i < e.charge.length)
    (h1 : e.charge.length ≤ e.localId.length)
    (h2 : e.charge.length ≤ e.time.length)
    (h3 : e.charge.length ≤ e.xPosition.length)
    (h4 : e.charge.length ≤ e.yPosition.length)
    (h5 : e.charge.length ≤ e.noiseTag.length)
    (htag : ∀ tg, e.noiseTag[i]? = some tg → tg.length ≤ 1) :
    ∃ v, channelStep jit e i = .ok v := by
  obtain ⟨lid, hlid⟩ := listGet_isOk e.localId i (lt_of_lt_of_le hi h1)
  obtain ⟨tg, htg⟩ := listGet_isOk e.noiseTag i (lt_of_lt_of_le hi h5)
  have htglen : tg.length ≤ 1 := by
    refine htag tg ?_
    rw [← List.get?_eq_getElem?]
    exact listGet_eq_ok_iff.mp htg
  obtain ⟨b, hb⟩ := npBool_isOk htglen
  obtain ⟨t, ht⟩ := listGet_isOk e.time i (lt_of_lt_of_le hi h2)
  obtain ⟨x, hx⟩ := listGet_isOk e.xPosition i (lt_of_lt_of_le hi h3)
  obtain ⟨y, hy⟩ := listGet_isOk e.yPosition i (lt_of_lt_of_le hi h4)
  obtain ⟨cq, hcq⟩ := listGet_isOk e.charge i hi
  cases hres : channelStep jit e i with
  | ok v => exact ⟨v, rfl⟩
  | error err =>
      exfalso
      cases b <;>
        simp [channelStep, hlid, htg, hb, ht, hx, hy, hcq,
          Bind.bind, Except.bind, Pure.pure, Except.pure] at hres

theorem channelScan_isOk (jit : ℕ → ℚ) (e : Event)
    (h1 : e.charge.length ≤ e.localId.length)
    (h2 : e.charge.length ≤ e.time.length)
    (h3 : e.charge.length ≤ e.xPosition.length)
    (h4 : e.charge.length ≤ e.yPosition.length)
    (h5 : e.charge.length ≤ e.noiseTag.length)
    (htag : ∀ i, i < e.charge.length → ∀ tg, e.noiseTag[i]? = some tg →
      tg.length ≤ 1) :
    ∀ idxs : List ℕ, (∀ i ∈ idxs, i < e.charge.length) →
    ∃ p, channelScan jit e idxs = .ok p
  | [], _ => ⟨([], []), rfl⟩
  | i :: rest, h => by
      have hi := h i (List.mem_cons_self _ _)
      obtain ⟨v, hv⟩ := channelStep_isOk jit e i hi h1 h2 h3 h4 h5 (htag i hi)
      obtain ⟨p, hp⟩ := channelScan_isOk jit e h1 h2 h3 h4 h5 htag rest
        (fun j hj => h j (List.mem_cons_of_mem _ hj))
      exact ⟨_, channelScan_cons_ok.mpr ⟨v, p, hv, hp, rfl⟩⟩

/-- C4 (amended): mismatched channel-array lengths are not validated.
The loop takes the channel count from the charge array alone: entries of
the other five arrays beyond that length are silently ignored (processing
an event equals processing its truncation), and when the other arrays are
at least as long as the charge array — even if strictly longer, i.e.
mismatched — the event is processed without any exception.  (An abort
happens only when a *shorter* non-charge array is actually indexed out of
range, as an `IndexError` that kills the whole batch.) -/
theorem mismatched_arrays_truncated
    (jit fluct : ℕ → ℚ) (th : ℚ) (e : Event) :
    (processEvent jit fluct th e = processEvent jit fluct th (truncateEvent e)) ∧
    (e.charge.length ≤ e.localId.length →
     e.charge.length ≤ e.time.length →
     e.charge.length ≤ e.xPosition.length →
     e.charge.length ≤ e.yPosition.length →
     e.charge.length ≤ e.noiseTag.length →
     (∀ i, i < e.charge.length → ∀ tg, e.noiseTag[i]? = some tg →
       tg.length ≤ 1) →
     ∃ obs, processEvent jit fluct th e = .ok obs) := by
  constructor
  · have hscan : channelScan jit (truncateEvent e) (List.range e.charge.length) =
        channelScan jit e (List.range e.charge.length) :=
      channelScan_congr jit (truncateEvent e) e _
        (fun i hi => channelStep_truncate jit e i (List.mem_range.mp hi))
    unfold processEvent
    rw [show (truncateEvent e).charge = e.charge from rfl, hscan]
    rfl
  · intro h1 h2 h3 h4 h5 htag
    obtain ⟨p, hp⟩ := channelScan_isOk jit e h1 h2 h3 h4 h5 htag
      (List.range e.charge.length) (fun i hi => List.mem_range.mp hi)
    exact ⟨_, by rw [processEvent, hp]; rfl⟩

/-- C4 is false as stated: the mismatched event `eC4` (charge array of
length 1, all other arrays of length 2) is not reported or aborted — it
is processed successfully using only the first channel. -/
theorem mismatched_arrays_counterexample :
    (processEvent zeroStream zeroStream defaultChannelThreshold eC4).map
      (fun o => o.num_channels_in_evt) = .ok 1 := by
  norm_num [processEvent, channelScan, channelStep, listGet, npBool, stripGeometry,
    mkObservables, weightedRadiusOf, fdiv, fsq, fadd, fsqrtE, xNum, xDen, yNum, yDen,
    driftNum, driftDen, fluctuatedCharge, maskSum, eC4, zeroStream, List.range,
    List.range.loop, Except.map, Except.bind, Bind.bind, Except.pure, Pure.pure]

/-- Witness for the amended C4 at the concrete mismatched event `eC4`. -/
theorem mismatched_arrays_truncated_witness :
    (processEvent zeroStream zeroStream defaultChannelThreshold eC4 =
      processEvent zeroStream zeroStream defaultChannelThreshold (truncateEvent eC4)) ∧
    (∃ obs, processEvent zeroStream zeroStream defaultChannelThreshold eC4 =
      .ok obs) := by
  refine ⟨(mismatched_arrays_truncated zeroStream zeroStream
    defaultChannelThreshold eC4).1,
    (mismatched_arrays_truncated zeroStream zeroStream
      defaultChannelThreshold eC4).2
      (by norm_num [eC4]) (by norm_num [eC4]) (by norm_num [eC4])
      (by norm_num [eC4]) (by norm_num [eC4]) ?_⟩
  intro i hi tg htg
  have hi0 : i = 0 := by
    simp [eC4] at hi
    omega
  subst hi0
  simp [eC4] at htg
  simp [← htg]

/-- C9: with `initialPhotonCount = 0`, every valid realization of the
draws gives `detectedPhotoelectrons = 0`: a `Binomial(0, 0.03)` sample is
at most 0, and a `Poisson(0)` sample has all its mass at 0 (its pmf
vanishes at every `k > 0`). -/
theorem light_zero_photons (g : LightRNG) (hg : g.Valid) :
    ComputeObservedLight g 0 = 0 := by
  simp only [ComputeObservedLight]
  have hbin : g.binomialDraw 0 (3 / 100) = 0 :=
    Nat.le_zero.mp (hg.binomial_le 0 (3 / 100))
  rw [hbin]
  have hp := hg.poisson_support (((0 : ℕ) : ℚ) * (2 / 10)) (by norm_num)
  have hk : g.poissonDraw (((0 : ℕ) : ℚ) * (2 / 10)) = 0 := by
    by_contra hne
    apply hp
    unfold poissonPMF
    have hc : ((((0 : ℕ) : ℚ) * (2 / 10) : ℚ) : ℝ) = 0 := by push_cast; ring
    rw [hc, zero_pow hne]
    simp
  rw [hk]

theorem lightRNGZero_valid : lightRNGZero.Valid := by
  constructor
  · intro n p
    exact Nat.zero_le n
  · intro lam hlam
    unfold poissonPMF lightRNGZero
    simp

/-- Witness for C9 at the concrete valid realization. -/
theorem light_zero_photons_witness : ComputeObservedLight lightRNGZero 0 = 0 :=
  light_zero_photons lightRNGZero lightRNGZero_valid

/-- C10: determinism.  All randomness of the Extractor is derived from the
seed of the shared generator; with the realized draw streams fixed by the
seed, two runs on identical input produce identical output arrays
(including the identical exception, if any). -/
theorem extractor_deterministic (g : ExtractorRNG) (th : ℚ)
    (nops : List ℕ) (dfelec : List Event) :
    (runTwice g th nops dfelec).1 = (runTwice g th nops dfelec).2 := rfl
